import Mathlib

/-!
Verification of the data-sequence adapter engine
(`legacy/datasequence_adapters/models.py`): exact rational interpolation,
per-period sample generation with offset subtraction, and the cross-period
accumulation stitcher.

Timestamps are modelled as whole seconds (`ℤ`), values and physical
quantities as exact rationals (`ℚ`, mirroring Python `Fraction`); units are
fixed per adapter and elided.  A datasource's `rawdata_set` is modelled as
its list of raw points in ascending timestamp order (the data model requires
strictly ordered, unique timestamps), so `order_by('timestamp')` is the
identity and the `filter(...).last()/.first()` queries become list
operations.
-/

namespace DatasequenceAdapters

/-- A raw reading: `RawData` row of a datasource (timestamp, value). -/
structure RawData where
  timestamp : ℤ
  value : ℚ
deriving DecidableEq

/-- Modelled from the spec: `Sample` (gridplatform.utils.samples, outside
`src/`) per spec section 3: `{from, to (equal for point samples), quantity,
cachable, extrapolated}`.  All samples produced by this module are point
samples (`from = to`). -/
structure Sample where
  from_timestamp : ℤ
  to_timestamp : ℤ
  physical_quantity : ℚ
  cachable : Bool
  extrapolated : Bool
deriving DecidableEq

/-- Modelled from the spec: the `timestamp` of a point sample (where
`from = to`) is that shared instant. -/
def Sample.timestamp (s : Sample) : ℤ :=
  s.from_timestamp

/-- `interpolate(timestamp, point_a, point_b)` (models.py lines 35-44):
`value_a + (value_b - value_a) * Fraction(t - t_a, t_b - t_a)` with the
timestamp differences taken in whole seconds. -/
def interpolate (timestamp : ℤ) (point_a point_b : RawData) : ℚ :=
  point_a.value + (point_b.value - point_a.value) *
    (((timestamp - point_a.timestamp : ℤ) : ℚ) /
      ((point_b.timestamp - point_a.timestamp : ℤ) : ℚ))

/-- `_get_leading_raw_data(timestamp)`: last raw point strictly before
`timestamp` (lines 229-231). -/
def get_leading_raw_data (rawdata : List RawData) (timestamp : ℤ) :
    Option RawData :=
  (rawdata.filter (fun r => decide (r.timestamp < timestamp))).getLast?

/-- `_get_following_raw_data(timestamp)`: first raw point strictly after
`timestamp` (lines 237-239). -/
def get_following_raw_data (rawdata : List RawData) (timestamp : ℤ) :
    Option RawData :=
  (rawdata.filter (fun r => decide (timestamp < r.timestamp))).head?

/-- `rawdata_set.filter(timestamp__gte=a, timestamp__lte=b)`: the ordered
raw points with timestamp in `[a, b]`. -/
def rawdata_in_range (rawdata : List RawData) (a b : ℤ) : List RawData :=
  rawdata.filter (fun r => decide (a ≤ r.timestamp) && decide (r.timestamp ≤ b))

/-- `PeriodAdapterBase`: a period with resolved bounds and its datasource's
raw data (lines 202-227; unset bounds are already resolved to the
min/max sentinels by `from_timestamp`/`to_timestamp`). -/
structure PeriodAdapter where
  from_timestamp : ℤ
  to_timestamp : ℤ
  rawdata : List RawData
deriving DecidableEq

/-- `_first_raw_data`: first raw point inside the period's own bounds
(lines 241-245). -/
def first_raw_data (p : PeriodAdapter) : Option RawData :=
  (rawdata_in_range p.rawdata p.from_timestamp p.to_timestamp).head?

/-- `_leading_raw_data`: last raw point before the period start
(lines 233-235). -/
def leading_raw_data (p : PeriodAdapter) : Option RawData :=
  get_leading_raw_data p.rawdata p.from_timestamp

/-- `create_point_sample` (lines 247-255): a point sample, cachable and
non-extrapolated by default. -/
def create_point_sample (timestamp : ℤ) (physical_quantity : ℚ)
    (cachable : Bool := true) (extrapolated : Bool := false) : Sample :=
  ⟨timestamp, timestamp, physical_quantity, cachable, extrapolated⟩

/-- `_interpolate_sample` (lines 257-265): cachable, non-extrapolated. -/
def interpolate_sample (timestamp : ℤ) (raw_data_before raw_data_after : RawData) :
    Sample :=
  create_point_sample timestamp (interpolate timestamp raw_data_before raw_data_after)

/-- `_extrapolate_sample` (lines 322-326): non-cachable, extrapolated. -/
def extrapolate_sample (timestamp : ℤ) (raw_data : RawData) : Sample :=
  create_point_sample timestamp raw_data.value false true

/-- `AccumulationPeriodAdapterBase.offset` (lines 298-320). -/
def PeriodAdapter.offset (p : PeriodAdapter) : ℚ :=
  match first_raw_data p with
  | none =>
    match leading_raw_data p with
    | none => 0
    | some leading => leading.value
  | some first =>
    if first.timestamp = p.from_timestamp then
      first.value
    else
      match leading_raw_data p with
      | some leading => interpolate p.from_timestamp leading first
      | none => first.value

/-- `_subtract_offset` (lines 328-330). -/
def subtract_offset (p : PeriodAdapter) (s : Sample) : Sample :=
  { s with physical_quantity := s.physical_quantity - p.offset }

/-- `AccumulationPeriodAdapterBase._get_raw_samples` (lines 336-413) as the
list of samples the generator yields for `[a, b]`. -/
def get_raw_samples (p : PeriodAdapter) (a b : ℤ) : List Sample :=
  match rawdata_in_range p.rawdata a b with
  | [] =>
    match get_leading_raw_data p.rawdata a, get_following_raw_data p.rawdata b with
    | some leading, some following =>
      if a = b then
        [subtract_offset p (interpolate_sample a leading following)]
      else
        [subtract_offset p (interpolate_sample a leading following),
          subtract_offset p (interpolate_sample b leading following)]
    | some leading, none =>
      if a = b then
        [subtract_offset p (extrapolate_sample a leading)]
      else
        [subtract_offset p (extrapolate_sample a leading),
          subtract_offset p (extrapolate_sample b leading)]
    | none, some following =>
      if a = b then
        [subtract_offset p (extrapolate_sample a following)]
      else
        [subtract_offset p (extrapolate_sample a following),
          subtract_offset p (extrapolate_sample b following)]
    | none, none => []
  | first :: rest =>
    (if first.timestamp ≠ a then
      match get_leading_raw_data p.rawdata (max p.from_timestamp a) with
      | some leading => [subtract_offset p (interpolate_sample a leading first)]
      | none => [subtract_offset p (extrapolate_sample a first)]
    else []) ++
    (first :: rest).map
      (fun r => subtract_offset p (create_point_sample r.timestamp r.value)) ++
    (if (rest.getLastD first).timestamp ≠ b then
      match get_following_raw_data p.rawdata (min p.to_timestamp b) with
      | some following =>
        [subtract_offset p (interpolate_sample b (rest.getLastD first) following)]
      | none => [subtract_offset p (extrapolate_sample b (rest.getLastD first))]
    else [])

/-- Kind of an accumulation input period, as discriminated by `wrap_period`
(lines 449-455): nonpulse passes raw samples through, pulse multiplies by
`output_quantity / pulse_quantity` (lines 416-439), unsupported kinds
yield no samples at all (lines 442-446). -/
inductive AccKind where
  | nonpulse : AccKind
  | pulse : ℚ → AccKind
  | unsupported : AccKind
deriving DecidableEq

/-- An accumulation input period: a `PeriodAdapter` together with its kind. -/
structure AccPeriod extends PeriodAdapter where
  kind : AccKind
deriving DecidableEq

/-- `PulseAccumulationPeriodAdapter._convert_sample` (lines 425-428). -/
def convert_sample (conversion_factor : ℚ) (s : Sample) : Sample :=
  { s with physical_quantity := conversion_factor * s.physical_quantity }

/-- The public `get_samples` of an accumulation input period: the
`AccumulationPeriodAdapterBase.get_samples` wrapper (lines 275-296) passes
the converted samples through unchanged, `UnsupportedPeriodAdapter`
overrides it to yield nothing (lines 445-446). -/
def AccPeriod.get_samples (p : AccPeriod) (a b : ℤ) : List Sample :=
  match p.kind with
  | AccKind.nonpulse => get_raw_samples p.toPeriodAdapter a b
  | AccKind.pulse conversion_factor =>
    (get_raw_samples p.toPeriodAdapter a b).map (convert_sample conversion_factor)
  | AccKind.unsupported => []

/-- `add_period_offset` (lines 88-94). -/
def add_period_offset (period_offset : ℚ) (s : Sample) : Sample :=
  { s with physical_quantity := s.physical_quantity + period_offset }

/-- The inner loop of `AccumulationAdapterBase._get_samples` over one later
period's samples (lines 133-142): arguments are the remaining samples, the
`first_sample_in_period` flag, `next_period_offset` and
`last_sample_yielded`; the result is the emitted samples, the final
`next_period_offset` and the final `last_sample_yielded` (note the loop
stores the sample *without* the added offset in `last_sample_yielded` and
in `next_period_offset`). -/
def later_loop (period_offset : ℚ) :
    List Sample → Bool → ℚ → Option Sample → List Sample × ℚ × Option Sample
  | [], _, next_period_offset, last_sample_yielded =>
    ([], next_period_offset, last_sample_yielded)
  | s :: rest, first_sample_in_period, _, last_sample_yielded =>
    if first_sample_in_period then
      later_loop period_offset rest false s.physical_quantity last_sample_yielded
    else
      let r := later_loop period_offset rest false s.physical_quantity (some s)
      (add_period_offset period_offset s :: r.1, r.2)

/-- The loop of `AccumulationAdapterBase._get_samples` over the remaining
(non-first) input periods (lines 131-143), threading `period_offset` and
`last_sample_yielded`. -/
def stitch_rest (f t : ℤ) :
    List AccPeriod → ℚ → Option Sample → List Sample × Option Sample
  | [], _, last_sample_yielded => ([], last_sample_yielded)
  | p :: ps, period_offset, last_sample_yielded =>
    let ss := p.get_samples (max f p.from_timestamp) (min t p.to_timestamp)
    let r := later_loop period_offset ss true 0 last_sample_yielded
    let rest_r := stitch_rest f t ps r.2.1 r.2.2
    (r.1 ++ rest_r.1, rest_r.2)

/-- The `period_offset` left by the loop over the first period's samples
(lines 119-125): the last sample's quantity, or zero if it yielded
nothing. -/
def first_period_offset (s1 : List Sample) : ℚ :=
  match s1.getLast? with
  | some s => s.physical_quantity
  | none => 0

/-- `last_sample_yielded` after the pre-period sample (lines 108-116) and
the first period's samples (lines 119-125). -/
def first_last_yielded (pre s1 : List Sample) : Option Sample :=
  match s1.getLast? with
  | some s => some s
  | none => pre.getLast?

/-- The stitcher after the first period's samples are known: run the
remaining periods (lines 127-143) and append the final extrapolated sample
(lines 145-151) or the two zero samples when nothing was yielded
(lines 152-162). -/
def acc_tail (f t : ℤ) (pre s1 : List Sample) (ps : List AccPeriod) : List Sample :=
  let r := stitch_rest f t ps (first_period_offset s1) (first_last_yielded pre s1)
  let body := pre ++ s1 ++ r.1
  match r.2 with
  | none =>
    body ++
      [create_point_sample f 0 false true, create_point_sample t 0 false true]
  | some ls =>
    if ls.timestamp ≠ t then
      body ++
        [{ ls with
            from_timestamp := t
            to_timestamp := t
            cachable := false
            extrapolated := true }]
    else
      body

/-- `AccumulationAdapterBase._get_samples` (lines 84-162), the accumulation
stitcher, over the chronologically ordered input periods returned by
`period_set.in_range(f, t)` (the query layer lives outside `src/`; the
stitcher consumes its ordered result, taken here as the argument list). -/
def acc_get_samples (periods : List AccPeriod) (f t : ℤ) : List Sample :=
  match periods with
  | [] =>
    [create_point_sample f 0 false true, create_point_sample t 0 false true]
  | p1 :: ps =>
    acc_tail f t
      (if f < p1.from_timestamp then [create_point_sample f 0 false true] else [])
      (p1.get_samples (max f p1.from_timestamp) (min t p1.to_timestamp)) ps

/-- `NonaccumulationPeriodAdapter._get_samples_pure_implementation`
(lines 463-515): like the accumulation raw samples but with no offset, no
extrapolation (boundary samples only when an interpolation partner exists),
and the range scan clipped to the period bounds. -/
def nonacc_period_samples (p : PeriodAdapter) (a b : ℤ) : List Sample :=
  match rawdata_in_range p.rawdata (max a p.from_timestamp) (min b p.to_timestamp) with
  | [] =>
    match get_leading_raw_data p.rawdata a, get_following_raw_data p.rawdata b with
    | some leading, some following =>
      if a = b then
        [interpolate_sample a leading following]
      else
        [interpolate_sample a leading following,
          interpolate_sample b leading following]
    | _, _ => []
  | first :: rest =>
    (if first.timestamp ≠ a then
      match get_leading_raw_data p.rawdata a with
      | some leading => [interpolate_sample a leading first]
      | none => []
    else []) ++
    (first :: rest).map (fun r => create_point_sample r.timestamp r.value) ++
    (if (rest.getLastD first).timestamp ≠ b then
      match get_following_raw_data p.rawdata b with
      | some following => [interpolate_sample b (rest.getLastD first) following]
      | none => []
    else [])

/-- `NonaccumulationAdapter._get_samples` (lines 534-547): per intersecting
period, clip the query to the period and suppress a sample at the period's
own end unless that end is the query's `to`. -/
def nonacc_get_samples (periods : List PeriodAdapter) (f t : ℤ) : List Sample :=
  periods.flatMap (fun p =>
    (nonacc_period_samples p (max f p.from_timestamp) (min t p.to_timestamp)).filter
      (fun s => !decide (s.timestamp = p.to_timestamp) ||
        decide (p.to_timestamp = t)))

/-! ## Helper lemmas -/

/-- Closed form of the inner stitcher loop once the first sample has been
consumed: every remaining sample is emitted with the period offset added,
`next_period_offset` becomes the last raw quantity, and
`last_sample_yielded` becomes the last raw sample. -/
theorem later_loop_emit (off : ℚ) :
    ∀ (xs : List Sample) (q0 : ℚ) (last : Option Sample),
      later_loop off xs false q0 last =
        (xs.map (add_period_offset off),
          match xs with
          | [] => (q0, last)
          | x :: xs' => ((xs'.getLastD x).physical_quantity, some (xs'.getLastD x)))
  | [], _, _ => rfl
  | x :: xs, q0, last => by
    show (add_period_offset off x :: (later_loop off xs false x.physical_quantity
      (some x)).1, (later_loop off xs false x.physical_quantity (some x)).2) = _
    rw [later_loop_emit off xs x.physical_quantity (some x)]
    cases xs with
    | nil => rfl
    | cons y ys =>
      simp [List.getLastD_eq_getLast?, List.getLast?_cons]

/-- The stitcher loop over one later period's sample list `s :: rest`. -/
theorem later_loop_cons (off q0 : ℚ) (last : Option Sample) (s : Sample)
    (rest : List Sample) :
    later_loop off (s :: rest) true q0 last =
      (rest.map (add_period_offset off), (rest.getLastD s).physical_quantity,
        if rest = [] then last else some (rest.getLastD s)) := by
  show later_loop off rest false s.physical_quantity last = _
  rw [later_loop_emit off rest s.physical_quantity last]
  cases rest with
  | nil => rfl
  | cons y ys => simp [List.getLastD_eq_getLast?, List.getLast?_cons]

/-- Sample transformations only touch the quantity. -/
@[simp] theorem subtract_offset_timestamp (p : PeriodAdapter) (s : Sample) :
    (subtract_offset p s).timestamp = s.timestamp := rfl

@[simp] theorem subtract_offset_cachable (p : PeriodAdapter) (s : Sample) :
    (subtract_offset p s).cachable = s.cachable := rfl

@[simp] theorem subtract_offset_extrapolated (p : PeriodAdapter) (s : Sample) :
    (subtract_offset p s).extrapolated = s.extrapolated := rfl

@[simp] theorem add_period_offset_timestamp (q : ℚ) (s : Sample) :
    (add_period_offset q s).timestamp = s.timestamp := rfl

@[simp] theorem add_period_offset_cachable (q : ℚ) (s : Sample) :
    (add_period_offset q s).cachable = s.cachable := rfl

@[simp] theorem add_period_offset_extrapolated (q : ℚ) (s : Sample) :
    (add_period_offset q s).extrapolated = s.extrapolated := rfl

@[simp] theorem convert_sample_timestamp (c : ℚ) (s : Sample) :
    (convert_sample c s).timestamp = s.timestamp := rfl

@[simp] theorem convert_sample_cachable (c : ℚ) (s : Sample) :
    (convert_sample c s).cachable = s.cachable := rfl

@[simp] theorem convert_sample_extrapolated (c : ℚ) (s : Sample) :
    (convert_sample c s).extrapolated = s.extrapolated := rfl

/-- Flags and timestamps of the three point-sample constructors. -/
@[simp] theorem create_point_sample_timestamp (t : ℤ) (q : ℚ) (c e : Bool) :
    (create_point_sample t q c e).timestamp = t := rfl

@[simp] theorem create_point_sample_cachable (t : ℤ) (q : ℚ) (c e : Bool) :
    (create_point_sample t q c e).cachable = c := rfl

@[simp] theorem create_point_sample_extrapolated (t : ℤ) (q : ℚ) (c e : Bool) :
    (create_point_sample t q c e).extrapolated = e := rfl

@[simp] theorem interpolate_sample_timestamp (t : ℤ) (x y : RawData) :
    (interpolate_sample t x y).timestamp = t := rfl

@[simp] theorem interpolate_sample_cachable (t : ℤ) (x y : RawData) :
    (interpolate_sample t x y).cachable = true := rfl

@[simp] theorem interpolate_sample_extrapolated (t : ℤ) (x y : RawData) :
    (interpolate_sample t x y).extrapolated = false := rfl

@[simp] theorem extrapolate_sample_timestamp (t : ℤ) (x : RawData) :
    (extrapolate_sample t x).timestamp = t := rfl

@[simp] theorem extrapolate_sample_cachable (t : ℤ) (x : RawData) :
    (extrapolate_sample t x).cachable = false := rfl

@[simp] theorem extrapolate_sample_extrapolated (t : ℤ) (x : RawData) :
    (extrapolate_sample t x).extrapolated = true := rfl

/-! ## Claims -/

/-- C1: for raw points `a`, `b` and a timestamp `t` with
`a.timestamp ≤ t < b.timestamp`, `interpolate(t, a, b)` equals exactly
`a.value + (b.value - a.value) * (t - a.timestamp)/(b.timestamp - a.timestamp)`
in exact rational arithmetic (equivalently, it satisfies the exact
cross-multiplied line equation); being a pure function of its arguments,
two evaluations on the same inputs are identical. -/
theorem interpolate_exact_rational (t : ℤ) (a b : RawData)
    (h1 : a.timestamp ≤ t) (h2 : t < b.timestamp) :
    interpolate t a b =
      a.value + (b.value - a.value) *
        (((t : ℚ) - (a.timestamp : ℚ)) / ((b.timestamp : ℚ) - (a.timestamp : ℚ))) ∧
    (interpolate t a b - a.value) * ((b.timestamp : ℚ) - (a.timestamp : ℚ)) =
      (b.value - a.value) * ((t : ℚ) - (a.timestamp : ℚ)) := by
  have hab : (a.timestamp : ℚ) < (b.timestamp : ℚ) := by
    exact_mod_cast lt_of_le_of_lt h1 h2
  have hne : (b.timestamp : ℚ) - (a.timestamp : ℚ) ≠ 0 :=
    sub_ne_zero.mpr (ne_of_gt hab)
  constructor
  · unfold interpolate
    push_cast
    ring
  · unfold interpolate
    push_cast
    field_simp
    ring

theorem interpolate_exact_rational_witness :
    interpolate 4 ⟨0, 1⟩ ⟨10, 21⟩ = 9 := by
  have h := interpolate_exact_rational 4 ⟨0, 1⟩ ⟨10, 21⟩ (by decide) (by decide)
  rw [h.1]
  norm_num

/-- C2: in the accumulation stitcher, a period after the first one whose
clipped sample sequence is `s :: rest` contributes exactly `rest` (its
first sample is skipped) with the carried `period_offset` added to each
quantity, and the carry passed to the following periods is the last raw
(pre-addition) quantity of `s :: rest`. -/
theorem stitcher_later_period_spec (f t : ℤ) (p : AccPeriod) (ps : List AccPeriod)
    (period_offset : ℚ) (last : Option Sample) (s : Sample) (rest : List Sample)
    (h : p.get_samples (max f p.from_timestamp) (min t p.to_timestamp) = s :: rest) :
    stitch_rest f t (p :: ps) period_offset last =
      (rest.map (add_period_offset period_offset) ++
          (stitch_rest f t ps (rest.getLastD s).physical_quantity
            (if rest = [] then last else some (rest.getLastD s))).1,
        (stitch_rest f t ps (rest.getLastD s).physical_quantity
          (if rest = [] then last else some (rest.getLastD s))).2) := by
  show (_, _) = _
  rw [h, later_loop_cons]

theorem stitcher_later_period_spec_witness :
    stitch_rest 0 30 [⟨⟨10, 20, [⟨10, 50⟩, ⟨20, 57⟩]⟩, AccKind.nonpulse⟩] 10 none =
      ([⟨20, 20, 17, true, false⟩], some ⟨20, 20, 7, true, false⟩) := by
  have h := stitcher_later_period_spec 0 30
    ⟨⟨10, 20, [⟨10, 50⟩, ⟨20, 57⟩]⟩, AccKind.nonpulse⟩ [] 10 none
    ⟨10, 10, 0, true, false⟩ [⟨20, 20, 7, true, false⟩]
    (by norm_num [AccPeriod.get_samples, get_raw_samples, rawdata_in_range,
      get_leading_raw_data, get_following_raw_data, PeriodAdapter.offset,
      first_raw_data, leading_raw_data, subtract_offset, interpolate_sample,
      extrapolate_sample, create_point_sample, interpolate, List.filter])
  rw [h]
  norm_num [stitch_rest, add_period_offset, List.getLastD_eq_getLast?]

/-- C3: the claim asserts continuity of the stitched output at every period
transition whenever the raw readings record no consumption across it.  On
this input three periods intersect the query `[0, 30]`; the third period's
raw readings are constant (`200` at both `20` and `30`), yet the emitted
quantity drops from `17` (at the boundary `20`) to `7` (at `30`): the carry
into the third period is the second period's last raw quantity `7`,
discarding the `10` carried into the second period. -/
theorem accumulation_boundary_drop_eval :
    acc_get_samples
        [⟨⟨0, 10, [⟨0, 100⟩, ⟨10, 110⟩]⟩, AccKind.nonpulse⟩,
          ⟨⟨10, 20, [⟨10, 50⟩, ⟨20, 57⟩]⟩, AccKind.nonpulse⟩,
          ⟨⟨20, 30, [⟨20, 200⟩, ⟨30, 200⟩]⟩, AccKind.nonpulse⟩] 0 30 =
      [⟨0, 0, 0, true, false⟩, ⟨10, 10, 10, true, false⟩,
        ⟨20, 20, 17, true, false⟩, ⟨30, 30, 7, true, false⟩] := by
  norm_num [acc_get_samples, acc_tail, first_period_offset, first_last_yielded,
    AccPeriod.get_samples, get_raw_samples,
    rawdata_in_range, get_leading_raw_data, get_following_raw_data,
    PeriodAdapter.offset, first_raw_data, leading_raw_data, subtract_offset,
    interpolate_sample, extrapolate_sample, create_point_sample, interpolate,
    stitch_rest, later_loop, add_period_offset, convert_sample, Sample.timestamp,
    List.filter]

/-- C6: the claim asserts the final synthetic sample's quantity equals the
quantity of the last sample previously emitted.  On this input the last
emitted sample is `(20, 17)` (quantity `7 + carry 10`), but the stitcher
stores the pre-offset sample in `last_sample_yielded`, so the appended
synthetic sample at `to = 40` carries quantity `7`, not `17` (it is,
as claimed, non-cachable and extrapolated). -/
theorem final_extrapolated_sample_eval :
    acc_get_samples
        [⟨⟨0, 10, [⟨0, 100⟩, ⟨10, 110⟩]⟩, AccKind.nonpulse⟩,
          ⟨⟨10, 20, [⟨10, 50⟩, ⟨20, 57⟩]⟩, AccKind.nonpulse⟩] 0 40 =
      [⟨0, 0, 0, true, false⟩, ⟨10, 10, 10, true, false⟩,
        ⟨20, 20, 17, true, false⟩, ⟨40, 40, 7, false, true⟩] := by
  norm_num [acc_get_samples, acc_tail, first_period_offset, first_last_yielded,
    AccPeriod.get_samples, get_raw_samples,
    rawdata_in_range, get_leading_raw_data, get_following_raw_data,
    PeriodAdapter.offset, first_raw_data, leading_raw_data, subtract_offset,
    interpolate_sample, extrapolate_sample, create_point_sample, interpolate,
    stitch_rest, later_loop, add_period_offset, convert_sample, Sample.timestamp,
    List.filter]

/-- C7: the period offset is the raw value at `period.from` when a point
sits exactly there; the interpolation at `period.from` between the nearest
leading point and the first in-period point when both exist; the leading
point's value when only a leading point exists; the first in-period point's
value when only in-period points exist; and zero when neither exists. -/
theorem offset_cases (p : PeriodAdapter) :
    (∀ first, first_raw_data p = some first →
      first.timestamp = p.from_timestamp → p.offset = first.value) ∧
    (∀ first leading, first_raw_data p = some first →
      first.timestamp ≠ p.from_timestamp → leading_raw_data p = some leading →
      p.offset = interpolate p.from_timestamp leading first) ∧
    (∀ leading, first_raw_data p = none → leading_raw_data p = some leading →
      p.offset = leading.value) ∧
    (∀ first, first_raw_data p = some first →
      first.timestamp ≠ p.from_timestamp → leading_raw_data p = none →
      p.offset = first.value) ∧
    (first_raw_data p = none → leading_raw_data p = none → p.offset = 0) := by
  refine ⟨?_, ?_, ?_, ?_, ?_⟩
  · intro first h1 h2
    simp [PeriodAdapter.offset, h1, h2]
  · intro first leading h1 h2 h3
    simp [PeriodAdapter.offset, h1, h2, h3]
  · intro leading h1 h2
    simp [PeriodAdapter.offset, h1, h2]
  · intro first h1 h2 h3
    simp [PeriodAdapter.offset, h1, h2, h3]
  · intro h1 h2
    simp [PeriodAdapter.offset, h1, h2]

theorem offset_cases_witness :
    PeriodAdapter.offset ⟨0, 100, [⟨0, 5⟩]⟩ = 5 :=
  (offset_cases ⟨0, 100, [⟨0, 5⟩]⟩).1 ⟨0, 5⟩ (by decide) (by decide)

/-- C8: when no input period intersects the accumulation query, the
stitcher yields exactly two zero-quantity point samples, at `from` and at
`to`, both non-cachable and extrapolated. -/
theorem no_periods_zero_samples (f t : ℤ) :
    acc_get_samples [] f t =
      [⟨f, f, 0, false, true⟩, ⟨t, t, 0, false, true⟩] := rfl

/-- C10: when no input period intersects a non-accumulation query, the
adapter yields the empty sequence (no synthetic zero samples, unlike the
accumulation path). -/
theorem nonacc_no_periods_empty (f t : ℤ) :
    nonacc_get_samples [] f t = [] := rfl

/-- C4 counterexample: for the non-accumulation period adapter with no raw
point in `[0, 50]` and only a leading point `(-10, 7)`, the claim demands
two extrapolated samples but the code yields the empty sequence (it only
interpolates, never extrapolates); for the accumulation period adapter on
the same data the two extrapolated samples carry quantity `0`, not the
point's value `7`, because the period offset (the leading value) is
subtracted. -/
theorem single_neighbor_counterexample :
    nonacc_period_samples ⟨0, 100, [⟨-10, 7⟩]⟩ 0 50 = [] ∧
    get_raw_samples ⟨0, 100, [⟨-10, 7⟩]⟩ 0 50 =
      [⟨0, 0, 0, false, true⟩, ⟨50, 50, 0, false, true⟩] := by
  constructor <;>
    norm_num [nonacc_period_samples, get_raw_samples, rawdata_in_range,
      get_leading_raw_data, get_following_raw_data, PeriodAdapter.offset,
      first_raw_data, leading_raw_data, subtract_offset, interpolate_sample,
      extrapolate_sample, create_point_sample, interpolate, List.filter]

/-- C4 (amended): for an accumulation period adapter, if no raw point has a
timestamp in `[from, to]` and exactly one of the nearest point before
`from` / nearest point after `to` exists, `_get_raw_samples` yields one
(`from = to`) or two (`from < to`) extrapolated, non-cachable samples, each
carrying the same constant quantity: that point's value minus the period's
offset.  The non-accumulation period adapter yields the empty sequence in
this situation. -/
theorem single_neighbor_extrapolation (p : PeriodAdapter) (a b : ℤ) (r : RawData)
    (hfrom : p.from_timestamp ≤ a) (hto : b ≤ p.to_timestamp)
    (hemp : rawdata_in_range p.rawdata a b = [])
    (hone : (get_leading_raw_data p.rawdata a = some r ∧
        get_following_raw_data p.rawdata b = none) ∨
      (get_leading_raw_data p.rawdata a = none ∧
        get_following_raw_data p.rawdata b = some r)) :
    get_raw_samples p a b =
      (if a = b then [⟨a, a, r.value - p.offset, false, true⟩]
        else [⟨a, a, r.value - p.offset, false, true⟩,
          ⟨b, b, r.value - p.offset, false, true⟩]) ∧
    nonacc_period_samples p a b = [] := by
  have hmax : max a p.from_timestamp = a := max_eq_left hfrom
  have hmin : min b p.to_timestamp = b := min_eq_left hto
  rcases hone with ⟨h1, h2⟩ | ⟨h1, h2⟩ <;>
    refine ⟨?_, ?_⟩ <;>
    simp [get_raw_samples, nonacc_period_samples, hemp, h1, h2, hmax, hmin,
      subtract_offset, extrapolate_sample, create_point_sample]

theorem single_neighbor_extrapolation_witness :
    get_raw_samples ⟨0, 100, [⟨150, 7⟩]⟩ 0 50 =
      [⟨0, 0, 7, false, true⟩, ⟨50, 50, 7, false, true⟩] ∧
    nonacc_period_samples ⟨0, 100, [⟨150, 7⟩]⟩ 0 50 = [] := by
  have h := single_neighbor_extrapolation ⟨0, 100, [⟨150, 7⟩]⟩ 0 50 ⟨150, 7⟩
    (by decide) (by decide)
    (by norm_num [rawdata_in_range, List.filter])
    (Or.inr ⟨by norm_num [get_leading_raw_data, List.filter],
      by norm_num [get_following_raw_data, List.filter]⟩)
  refine ⟨?_, h.2⟩
  rw [h.1]
  norm_num [PeriodAdapter.offset, first_raw_data, leading_raw_data,
    rawdata_in_range, get_leading_raw_data, List.filter]

/-- Every sample of a period's raw sample list is non-extrapolated or
non-cachable. -/
theorem mem_get_raw_samples_flags {p : PeriodAdapter} {a b : ℤ} {s : Sample}
    (h : s ∈ get_raw_samples p a b) :
    s.extrapolated = false ∨ s.cachable = false := by
  unfold get_raw_samples at h
  split at h
  · split at h <;> try split at h
    all_goals fin_cases h <;> simp
  · simp only [List.mem_append] at h
    rcases h with (h | h) | h
    · split at h
      · split at h <;> (fin_cases h) <;> simp
      · fin_cases h
    · simp only [List.mem_map] at h
      obtain ⟨r, _, rfl⟩ := h
      simp
    · split at h
      · split at h <;> (fin_cases h) <;> simp
      · fin_cases h

/-- Lift to the public per-period `get_samples` (pulse conversion keeps the
flags, unsupported periods yield nothing). -/
theorem mem_acc_period_samples_flags {p : AccPeriod} {a b : ℤ} {s : Sample}
    (h : s ∈ p.get_samples a b) :
    s.extrapolated = false ∨ s.cachable = false := by
  unfold AccPeriod.get_samples at h
  split at h
  · exact mem_get_raw_samples_flags h
  · simp only [List.mem_map] at h
    obtain ⟨s0, hs0, rfl⟩ := h
    simpa using mem_get_raw_samples_flags hs0
  · simp at h

/-- Every sample emitted by the stitcher's later-periods loop is
non-extrapolated or non-cachable. -/
theorem mem_stitch_rest_flags (f t : ℤ) :
    ∀ (ps : List AccPeriod) (off : ℚ) (last : Option Sample) {s : Sample},
      s ∈ (stitch_rest f t ps off last).1 →
      s.extrapolated = false ∨ s.cachable = false
  | [], _, _, _, h => by simp [stitch_rest] at h
  | p :: ps, off, last, s, h => by
    simp only [stitch_rest, List.mem_append] at h
    rcases h with h | h
    · rcases hss : p.get_samples (max f p.from_timestamp) (min t p.to_timestamp)
        with _ | ⟨s0, rest0⟩
      · rw [hss] at h
        simp [later_loop] at h
      · rw [hss, later_loop_cons] at h
        simp only [List.mem_map] at h
        obtain ⟨s1, hs1, rfl⟩ := h
        have := mem_acc_period_samples_flags
          (p := p) (a := max f p.from_timestamp) (b := min t p.to_timestamp)
          (s := s1) (by rw [hss]; exact List.mem_cons_of_mem _ hs1)
        simpa using this
    · exact mem_stitch_rest_flags f t ps _ _ h

/-- C9: every sample produced by any operation of the engine — per-period
accumulation samples, the accumulation stitcher, per-period
non-accumulation samples, and the non-accumulation adapter — that is
marked extrapolated is also non-cachable. -/
theorem extrapolated_uncachable :
    (∀ (p : AccPeriod) (a b : ℤ) (s : Sample),
      s ∈ p.get_samples a b → s.extrapolated = true → s.cachable = false) ∧
    (∀ (periods : List AccPeriod) (f t : ℤ) (s : Sample),
      s ∈ acc_get_samples periods f t → s.extrapolated = true → s.cachable = false) ∧
    (∀ (p : PeriodAdapter) (a b : ℤ) (s : Sample),
      s ∈ nonacc_period_samples p a b → s.extrapolated = true → s.cachable = false) ∧
    (∀ (periods : List PeriodAdapter) (f t : ℤ) (s : Sample),
      s ∈ nonacc_get_samples periods f t → s.extrapolated = true → s.cachable = false) := by
  have hnonacc : ∀ (p : PeriodAdapter) (a b : ℤ) (s : Sample),
      s ∈ nonacc_period_samples p a b → s.extrapolated = false := by
    intro p a b s h
    unfold nonacc_period_samples at h
    split at h
    · split at h <;> try split at h
      all_goals fin_cases h <;> simp
    · simp only [List.mem_append] at h
      rcases h with (h | h) | h
      · split at h
        · split at h <;> (fin_cases h <;> simp)
        · fin_cases h
      · simp only [List.mem_map] at h
        obtain ⟨r, _, rfl⟩ := h
        simp
      · split at h
        · split at h <;> (fin_cases h <;> simp)
        · fin_cases h
  have hflag : ∀ {s : Sample}, s.extrapolated = false ∨ s.cachable = false →
      s.extrapolated = true → s.cachable = false := by
    intro s h he
    rcases h with h | h
    · rw [he] at h
      exact absurd h (by simp)
    · exact h
  refine ⟨fun p a b s h => hflag (mem_acc_period_samples_flags h), ?_, ?_, ?_⟩
  · intro periods f t s h
    match periods with
    | [] =>
      simp only [acc_get_samples, List.mem_cons, List.not_mem_nil, or_false] at h
      rcases h with rfl | rfl <;> intro _ <;> simp [create_point_sample]
    | p1 :: ps =>
      refine hflag ?_
      simp only [acc_get_samples, acc_tail] at h
      split at h
      · simp only [List.mem_append, List.mem_cons, List.not_mem_nil, or_false] at h
        rcases h with ((h | h) | h) | (rfl | rfl)
        · split at h
          · simp only [List.mem_cons, List.not_mem_nil, or_false] at h
            subst h
            simp
          · simp at h
        · exact mem_acc_period_samples_flags h
        · exact mem_stitch_rest_flags f t ps _ _ h
        · simp
        · simp
      · split at h
        · simp only [List.mem_append, List.mem_cons, List.not_mem_nil, or_false] at h
          rcases h with ((h | h) | h) | rfl
          · split at h
            · simp only [List.mem_cons, List.not_mem_nil, or_false] at h
              subst h
              simp
            · simp at h
          · exact mem_acc_period_samples_flags h
          · exact mem_stitch_rest_flags f t ps _ _ h
          · right
            rfl
        · simp only [List.mem_append] at h
          rcases h with (h | h) | h
          · split at h
            · simp only [List.mem_cons, List.not_mem_nil, or_false] at h
              subst h
              simp
            · simp at h
          · exact mem_acc_period_samples_flags h
          · exact mem_stitch_rest_flags f t ps _ _ h
  · intro p a b s h
    exact hflag (Or.inl (hnonacc p a b s h))
  · intro periods f t s h
    simp only [nonacc_get_samples, List.mem_flatMap, List.mem_filter] at h
    obtain ⟨p, _, hmem, _⟩ := h
    exact hflag (Or.inl (hnonacc p _ _ s hmem))

theorem extrapolated_uncachable_witness :
    (⟨0, 0, 0, false, true⟩ : Sample) ∈ acc_get_samples [] 0 1 ∧
    Sample.cachable ⟨0, 0, 0, false, true⟩ = false :=
  ⟨by simp [acc_get_samples, create_point_sample],
    extrapolated_uncachable.2.1 [] 0 1 ⟨0, 0, 0, false, true⟩
      (by simp [acc_get_samples, create_point_sample]) rfl⟩

@[simp] theorem getLast?_singleton (x : Sample) : ([x] : List Sample).getLast? = some x :=
  rfl

@[simp] theorem getLast?_pair (x y : Sample) : ([x, y] : List Sample).getLast? = some y :=
  rfl

/-- A non-empty per-period accumulation raw sample list begins at the
requested `from`. -/
theorem get_raw_samples_head {p : PeriodAdapter} {a b : ℤ} {s : Sample}
    (h : (get_raw_samples p a b).head? = some s) : s.timestamp = a := by
  unfold get_raw_samples at h
  split at h
  · split at h <;> try split at h
    all_goals first
      | (simp only [List.head?_cons, Option.some.injEq] at h; subst h; simp)
      | simp at h
  · split at h
    · split at h <;>
        (simp only [List.cons_append, List.nil_append, List.head?_cons,
          Option.some.injEq] at h; subst h; simp)
    · rename_i hcond
      simp only [ne_eq, not_not] at hcond
      simp only [List.nil_append, List.map_cons, List.cons_append,
        List.head?_cons, Option.some.injEq] at h
      subst h
      simp only [subtract_offset_timestamp, create_point_sample_timestamp]
      exact hcond

/-- A non-empty per-period accumulation raw sample list ends at the
requested `to`. -/
theorem get_raw_samples_last {p : PeriodAdapter} {a b : ℤ} {s : Sample}
    (h : (get_raw_samples p a b).getLast? = some s) : s.timestamp = b := by
  unfold get_raw_samples at h
  split at h
  · split at h <;> try split at h
    all_goals first
      | (rename_i hab
         rw [getLast?_singleton] at h
         injection h with h
         subst h
         simp [hab])
      | (rw [getLast?_pair] at h
         injection h with h
         subst h
         simp)
      | simp at h
  · rename_i hd tl heq
    have htail : ∀ (L : List Sample),
        ((L ++ (hd :: tl).map
            (fun r => subtract_offset p (create_point_sample r.timestamp r.value))) ++
          (if (tl.getLastD hd).timestamp ≠ b then
            match get_following_raw_data p.rawdata (min p.to_timestamp b) with
            | some following =>
              [subtract_offset p (interpolate_sample b (tl.getLastD hd) following)]
            | none => [subtract_offset p (extrapolate_sample b (tl.getLastD hd))]
          else [])).getLast? = some s → s.timestamp = b := by
      intro L hL
      split at hL
      · split at hL <;>
          (rw [List.getLast?_append_of_ne_nil _ (by simp), getLast?_singleton] at hL
           injection hL with hL
           subst hL
           simp)
      · rename_i hcond
        simp only [ne_eq, not_not, List.getLastD_eq_getLast?] at hcond
        rw [List.append_nil, List.getLast?_append_of_ne_nil _ (by simp),
          List.getLast?_map, List.getLast?_cons, Option.map_some'] at hL
        injection hL with hL
        subst hL
        simpa using hcond
    split at h
    · split at h <;> exact htail _ h
    · exact htail _ h

/-- Lift the head property through pulse conversion and the unsupported
kind. -/
theorem acc_period_samples_head {p : AccPeriod} {a b : ℤ} {s : Sample}
    (h : (p.get_samples a b).head? = some s) : s.timestamp = a := by
  unfold AccPeriod.get_samples at h
  split at h
  · exact get_raw_samples_head h
  · rw [List.head?_map] at h
    obtain ⟨s0, hs0, rfl⟩ := Option.map_eq_some'.mp h
    simpa using get_raw_samples_head hs0
  · simp at h

/-- Lift the last property through pulse conversion and the unsupported
kind. -/
theorem acc_period_samples_last {p : AccPeriod} {a b : ℤ} {s : Sample}
    (h : (p.get_samples a b).getLast? = some s) : s.timestamp = b := by
  unfold AccPeriod.get_samples at h
  split at h
  · exact get_raw_samples_last h
  · rw [List.getLast?_map] at h
    obtain ⟨s0, hs0, rfl⟩ := Option.map_eq_some'.mp h
    simpa using get_raw_samples_last hs0
  · simp at h

/-- Invariant of the later-periods loop: either it emitted nothing and
passed `last_sample_yielded` through, or `last_sample_yielded` holds a
sample whose timestamp is that of the last emitted sample. -/
theorem stitch_rest_last_inv (f t : ℤ) :
    ∀ (ps : List AccPeriod) (off : ℚ) (last : Option Sample),
      ((stitch_rest f t ps off last).1 = [] ∧ (stitch_rest f t ps off last).2 = last) ∨
      (∃ ls, (stitch_rest f t ps off last).2 = some ls ∧
        ((stitch_rest f t ps off last).1.getLast?).map Sample.timestamp =
          some ls.timestamp)
  | [], _, _ => Or.inl ⟨rfl, rfl⟩
  | p :: ps, off, last => by
    rcases hss : p.get_samples (max f p.from_timestamp) (min t p.to_timestamp)
      with _ | ⟨s0, rest0⟩
    · have hstep :
          stitch_rest f t (p :: ps) off last =
            ((stitch_rest f t ps 0 last).1, (stitch_rest f t ps 0 last).2) := by
        simp only [stitch_rest, hss, later_loop, List.nil_append]
      rw [hstep]
      exact stitch_rest_last_inv f t ps 0 last
    · have hloop := later_loop_cons off 0 last s0 rest0
      cases rest0 with
      | nil =>
        have hstep :
            stitch_rest f t (p :: ps) off last =
              ((stitch_rest f t ps s0.physical_quantity last).1,
                (stitch_rest f t ps s0.physical_quantity last).2) := by
          simp [stitch_rest, hss, hloop]
        rw [hstep]
        exact stitch_rest_last_inv f t ps s0.physical_quantity last
      | cons x xs =>
        have hL : (x :: xs : List Sample) ≠ [] := by simp
        have hstep :
            stitch_rest f t (p :: ps) off last =
              ((x :: xs).map (add_period_offset off) ++
                  (stitch_rest f t ps ((x :: xs).getLastD s0).physical_quantity
                    (some ((x :: xs).getLastD s0))).1,
                (stitch_rest f t ps ((x :: xs).getLastD s0).physical_quantity
                  (some ((x :: xs).getLastD s0))).2) := by
          simp only [stitch_rest, hss, hloop, if_neg hL]
        rw [hstep]
        rcases stitch_rest_last_inv f t ps ((x :: xs).getLastD s0).physical_quantity
            (some ((x :: xs).getLastD s0)) with ⟨h1, h2⟩ | ⟨ls, h1, h2⟩
        · refine Or.inr ⟨(x :: xs).getLastD s0, h2, ?_⟩
          rw [h1, List.append_nil, List.getLast?_map]
          simp [List.getLastD_eq_getLast?, List.getLast?_cons]
        · refine Or.inr ⟨ls, h1, ?_⟩
          have hne : (stitch_rest f t ps ((x :: xs).getLastD s0).physical_quantity
              (some ((x :: xs).getLastD s0))).1 ≠ [] := by
            intro hnil
            rw [hnil] at h2
            simp at h2
          rw [List.getLast?_append_of_ne_nil _ hne]
          exact h2

/-- `last_sample_yielded` after the first period: `none` means nothing was
yielded; otherwise it is the last sample of the pre-sample plus first
period output. -/
theorem first_last_yielded_spec (pre s1 : List Sample) :
    (first_last_yielded pre s1 = none → pre = [] ∧ s1 = []) ∧
    (∀ ls, first_last_yielded pre s1 = some ls → (pre ++ s1).getLast? = some ls) := by
  unfold first_last_yielded
  rcases hs1 : s1.getLast? with _ | s
  · have hs1nil : s1 = [] := by
      cases s1 with
      | nil => rfl
      | cons a l => rw [List.getLast?_cons] at hs1; simp at hs1
    subst hs1nil
    constructor
    · intro hpre
      have : pre = [] := by
        cases pre with
        | nil => rfl
        | cons a l => rw [List.getLast?_cons] at hpre; simp at hpre
      exact ⟨this, rfl⟩
    · intro ls hls
      rw [List.append_nil]
      exact hls
  · have hs1ne : s1 ≠ [] := by
      intro hnil
      rw [hnil] at hs1
      simp at hs1
    constructor
    · intro hcontra
      simp at hcontra
    · intro ls hls
      rw [List.getLast?_append_of_ne_nil _ hs1ne, hs1]
      exact hls

/-- The stitched accumulation output is never empty, and its last sample
sits at the query's `to`. -/
theorem acc_tail_last (f t : ℤ) (pre s1 : List Sample) (ps : List AccPeriod) :
    acc_tail f t pre s1 ps ≠ [] ∧
    (∀ s, (acc_tail f t pre s1 ps).getLast? = some s → s.timestamp = t) := by
  simp only [acc_tail]
  have hbody_none :
      (stitch_rest f t ps (first_period_offset s1) (first_last_yielded pre s1)).2 =
        none →
      pre ++ s1 ++
        (stitch_rest f t ps (first_period_offset s1) (first_last_yielded pre s1)).1 =
        [] := by
    intro hnone
    rcases stitch_rest_last_inv f t ps (first_period_offset s1)
        (first_last_yielded pre s1) with ⟨h1, h2⟩ | ⟨ls, h1, _⟩
    · rw [h2] at hnone
      obtain ⟨hpre, hs1⟩ := (first_last_yielded_spec pre s1).1 hnone
      rw [h1, hpre, hs1]
      rfl
    · rw [h1] at hnone
      exact absurd hnone (by simp)
  have hbody_some : ∀ ls,
      (stitch_rest f t ps (first_period_offset s1) (first_last_yielded pre s1)).2 =
        some ls →
      ((pre ++ s1 ++
        (stitch_rest f t ps (first_period_offset s1)
          (first_last_yielded pre s1)).1).getLast?).map Sample.timestamp =
        some ls.timestamp := by
    intro ls hsome
    rcases stitch_rest_last_inv f t ps (first_period_offset s1)
        (first_last_yielded pre s1) with ⟨h1, h2⟩ | ⟨ls', h1, h2⟩
    · rw [h2] at hsome
      rw [h1, List.append_nil,
        (first_last_yielded_spec pre s1).2 ls hsome]
      rfl
    · rw [h1] at hsome
      injection hsome with hls
      subst hls
      have hne : (stitch_rest f t ps (first_period_offset s1)
          (first_last_yielded pre s1)).1 ≠ [] := by
        intro hnil
        rw [hnil] at h2
        simp at h2
      rw [List.getLast?_append_of_ne_nil _ hne]
      exact h2
  split
  · rename_i hnone
    constructor
    · simp
    · intro s hs
      rw [List.getLast?_append_of_ne_nil _ (by simp), getLast?_pair] at hs
      injection hs with hs
      subst hs
      rfl
  · rename_i ls hsome
    split
    · rename_i hne
      constructor
      · simp
      · intro s hs
        rw [List.getLast?_append_of_ne_nil _ (by simp), getLast?_singleton] at hs
        injection hs with hs
        subst hs
        rfl
    · rename_i heq
      simp only [ne_eq, not_not] at heq
      have hmap := hbody_some ls hsome
      constructor
      · intro hnil
        rw [hnil] at hmap
        simp at hmap
      · intro s hs
        rw [hs, Option.map_some'] at hmap
        injection hmap with hmap
        rw [hmap, heq]

/-- The stitched accumulation output begins with the pre-sample plus first
period output whenever that part is non-empty. -/
theorem acc_tail_head (f t : ℤ) (pre s1 : List Sample) (ps : List AccPeriod)
    (hne : pre ++ s1 ≠ [])
    (hhead : ∀ s, (pre ++ s1).head? = some s → s.timestamp = f) :
    ∀ s, (acc_tail f t pre s1 ps).head? = some s → s.timestamp = f := by
  intro s hs
  simp only [acc_tail] at hs
  have hbody : ∀ (l : List Sample),
      ((pre ++ s1) ++ l).head? = some s → s.timestamp = f := by
    intro l hl
    rw [List.head?_append_of_ne_nil _ hne] at hl
    exact hhead s hl
  split at hs
  · rw [List.append_assoc (pre ++ s1)] at hs
    exact hbody _ hs
  · split at hs
    · rw [List.append_assoc (pre ++ s1)] at hs
      exact hbody _ hs
    · exact hbody _ hs

/-- C5 counterexample: the non-accumulation adapter on a single period
`[0, 100]` with one raw point `(10, 5)` and query `[0, 50]` returns a
non-empty sequence starting at `10`, not at `from = 0` (no leading
interpolation partner exists), refuting both the adapter-level and the
per-period part of the claim for the non-accumulation path; and the
accumulation stitcher, when the first intersecting period has no raw data
at all, starts at the second period's second sample (`20`), not at
`from = 0`. -/
theorem samples_range_counterexample :
    nonacc_get_samples [⟨0, 100, [⟨10, 5⟩]⟩] 0 50 = [⟨10, 10, 5, true, false⟩] ∧
    (nonacc_get_samples [⟨0, 100, [⟨10, 5⟩]⟩] 0 50).head?.map Sample.timestamp ≠
      some 0 ∧
    acc_get_samples
        [⟨⟨0, 10, []⟩, AccKind.nonpulse⟩,
          ⟨⟨10, 20, [⟨10, 50⟩, ⟨20, 57⟩]⟩, AccKind.nonpulse⟩] 0 30 =
      [⟨20, 20, 7, true, false⟩, ⟨30, 30, 7, false, true⟩] ∧
    (acc_get_samples
        [⟨⟨0, 10, []⟩, AccKind.nonpulse⟩,
          ⟨⟨10, 20, [⟨10, 50⟩, ⟨20, 57⟩]⟩, AccKind.nonpulse⟩] 0 30).head?.map
        Sample.timestamp ≠ some 0 := by
  have h1 : nonacc_get_samples [⟨0, 100, [⟨10, 5⟩]⟩] 0 50 =
      [⟨10, 10, 5, true, false⟩] := by
    norm_num [nonacc_get_samples, nonacc_period_samples, rawdata_in_range,
      get_leading_raw_data, get_following_raw_data, interpolate_sample,
      create_point_sample, interpolate, Sample.timestamp, List.filter]
  have h2 : acc_get_samples
      [⟨⟨0, 10, []⟩, AccKind.nonpulse⟩,
        ⟨⟨10, 20, [⟨10, 50⟩, ⟨20, 57⟩]⟩, AccKind.nonpulse⟩] 0 30 =
      [⟨20, 20, 7, true, false⟩, ⟨30, 30, 7, false, true⟩] := by
    norm_num [acc_get_samples, acc_tail, first_period_offset, first_last_yielded,
      AccPeriod.get_samples, get_raw_samples,
      rawdata_in_range, get_leading_raw_data, get_following_raw_data,
      PeriodAdapter.offset, first_raw_data, leading_raw_data, subtract_offset,
      interpolate_sample, extrapolate_sample, create_point_sample, interpolate,
      stitch_rest, later_loop, add_period_offset, convert_sample, Sample.timestamp,
      List.filter]
  refine ⟨h1, ?_, h2, ?_⟩
  · rw [h1]
    simp [Sample.timestamp]
  · rw [h2]
    simp [Sample.timestamp]

/-- C5 (amended): per-period accumulation sample sequences, when non-empty,
start at `from` and end at `to`.  At the adapter level, an accumulation
query with at least one intersecting period always returns a non-empty
sequence whose last sample is at `to`; its first sample is at `from`
provided the first intersecting period starts after `from` (a pre-sample is
synthesized) or itself contributes at least one sample.  The
non-accumulation path gives no such guarantee (it can start after `from`
or end before `to` when a boundary interpolation partner is missing). -/
theorem samples_range_cover :
    (∀ (p : AccPeriod) (a b : ℤ) (s : Sample),
      ((p.get_samples a b).head? = some s → s.timestamp = a) ∧
      ((p.get_samples a b).getLast? = some s → s.timestamp = b)) ∧
    (∀ (p1 : AccPeriod) (ps : List AccPeriod) (f t : ℤ),
      acc_get_samples (p1 :: ps) f t ≠ [] ∧
      (∀ s, (acc_get_samples (p1 :: ps) f t).getLast? = some s → s.timestamp = t) ∧
      ((f < p1.from_timestamp ∨
          p1.get_samples (max f p1.from_timestamp) (min t p1.to_timestamp) ≠ []) →
        ∀ s, (acc_get_samples (p1 :: ps) f t).head? = some s → s.timestamp = f)) := by
  constructor
  · intro p a b s
    exact ⟨acc_period_samples_head, acc_period_samples_last⟩
  · intro p1 ps f t
    have hform : acc_get_samples (p1 :: ps) f t =
        acc_tail f t
          (if f < p1.from_timestamp then [create_point_sample f 0 false true] else [])
          (p1.get_samples (max f p1.from_timestamp) (min t p1.to_timestamp)) ps := rfl
    rw [hform]
    refine ⟨(acc_tail_last f t _ _ ps).1, (acc_tail_last f t _ _ ps).2, ?_⟩
    intro hprov
    by_cases hf : f < p1.from_timestamp
    · refine acc_tail_head f t _ _ ps ?_ ?_
      · rw [if_pos hf]
        simp
      · intro s hs
        rw [if_pos hf, List.cons_append, List.head?_cons] at hs
        injection hs with hs
        subst hs
        rfl
    · have hs1 : p1.get_samples (max f p1.from_timestamp) (min t p1.to_timestamp) ≠
          [] := by
        rcases hprov with hprov | hprov
        · exact absurd hprov hf
        · exact hprov
      refine acc_tail_head f t _ _ ps ?_ ?_
      · rw [if_neg hf, List.nil_append]
        exact hs1
      · intro s hs
        rw [if_neg hf, List.nil_append] at hs
        have := acc_period_samples_head hs
        rwa [max_eq_left (not_lt.mp hf)] at this

theorem samples_range_cover_witness :
    acc_get_samples [⟨⟨0, 10, [⟨0, 100⟩, ⟨10, 110⟩]⟩, AccKind.nonpulse⟩] 0 10 ≠ [] ∧
    Sample.timestamp ⟨10, 10, 10, true, false⟩ = 10 := by
  have heval : acc_get_samples
      [⟨⟨0, 10, [⟨0, 100⟩, ⟨10, 110⟩]⟩, AccKind.nonpulse⟩] 0 10 =
      [⟨0, 0, 0, true, false⟩, ⟨10, 10, 10, true, false⟩] := by
    norm_num [acc_get_samples, acc_tail, first_period_offset, first_last_yielded,
      AccPeriod.get_samples, get_raw_samples,
      rawdata_in_range, get_leading_raw_data, get_following_raw_data,
      PeriodAdapter.offset, first_raw_data, leading_raw_data, subtract_offset,
      interpolate_sample, extrapolate_sample, create_point_sample, interpolate,
      stitch_rest, later_loop, add_period_offset, convert_sample, Sample.timestamp,
      List.filter]
  have h := samples_range_cover.2 ⟨⟨0, 10, [⟨0, 100⟩, ⟨10, 110⟩]⟩, AccKind.nonpulse⟩
    [] 0 10
  exact ⟨h.1, h.2.1 ⟨10, 10, 10, true, false⟩ (by rw [heval]; rfl)⟩

end DatasequenceAdapters
